import Mathlib

set_option maxHeartbeats 1000000

/-!
Shallow embedding of pytr's event-normalization module (`src/pytr/event.py`)
together with a model of the two external library functions it calls:
`babel.numbers.parse_decimal` (restricted to the "en" and "de" locales, which
are the only ones the module uses) and `datetime.fromisoformat` (restricted to
the string shapes reachable after the module's `[:19]` truncation).
Machine floats are modelled by exact rationals; Unicode-sensitive character
classes (`\d`, `str.isalnum`, `str.isupper`, `str.lower`) are modelled on the
ASCII range, which is the range the module's string literals and the broker's
identifiers use.
-/

/-- Python exceptions that the embedded code can raise. -/
inductive PyErr where
  | keyError (key : String)
  | attributeError
  | typeError
  | valueError
deriving DecidableEq

/-- Python/JSON-like values: the loosely-typed nested dictionaries the module
consumes.  `null` doubles as Python's `None`. -/
inductive JVal where
  | null
  | str (s : String)
  | num (q : ℚ)
  | obj (fields : List (String × JVal))
  | arr (items : List JVal)

/-- First-match lookup in a dictionary's field list. -/
def jlookup : List (String × JVal) → String → Option JVal
  | [], _ => none
  | (k, v) :: r, key => if k = key then some v else jlookup r key

/-- Python `d.get(k, dflt)`: the default is used only when the key is absent;
a stored `None` is returned as `None`.  Raises `AttributeError` when `d` is
not a dict (as Python does). -/
def jgetD (d : JVal) (k : String) (dflt : JVal) : Except PyErr JVal :=
  match d with
  | .obj fs => .ok ((jlookup fs k).getD dflt)
  | _ => .error .attributeError

/-- Python `d.get(k)` (default `None`). -/
def jgetN (d : JVal) (k : String) : Except PyErr JVal :=
  jgetD d k .null

/-- Python `d[k]`: raises `KeyError` when the key is absent. -/
def jindex (d : JVal) (k : String) : Except PyErr JVal :=
  match d with
  | .obj fs =>
    match jlookup fs k with
    | some v => .ok v
    | none => .error (.keyError k)
  | _ => .error .typeError

/-- Coerce to a Python `str`, raising `TypeError` otherwise (the error a string
operation on a non-string produces). -/
def asStr : JVal → Except PyErr String
  | .str s => .ok s
  | _ => .error .typeError

/-- Coerce to a Python list, raising `TypeError` otherwise (the error iterating
a non-sequence produces). -/
def asArr : JVal → Except PyErr (List JVal)
  | .arr l => .ok l
  | _ => .error .typeError

/-- Python truthiness for the values we model. -/
def truthy : JVal → Bool
  | .null => false
  | .str s => !s.data.isEmpty
  | .num q => decide (q ≠ 0)
  | .obj fs => !fs.isEmpty
  | .arr l => !l.isEmpty

/-- Python `v == s` for a string literal `s`. -/
def isStr (d : JVal) (s : String) : Bool :=
  match d with
  | .str t => t = s
  | _ => false

/-- Python `str.lower()` (ASCII range). -/
def pyLower (s : String) : String :=
  String.mk (s.data.map Char.toLower)

/-- Python `s.startswith(p)`. -/
def pyStartsWith (s p : String) : Bool :=
  s.data.take p.data.length = p.data

/-! ### Model of `babel.numbers.parse_decimal` (strict mode, locales "en"/"de")

Babel's algorithm, for a locale with group symbol `grp` and decimal symbol
`dec`: remove every `grp`, replace `dec` by `'.'`, and parse the result as a
Python `Decimal` literal.  In strict mode, when the group symbol occurs in the
input, the input must additionally round-trip through `format_decimal`
(canonical 3-digit grouping, minimal digits); failing that, babel re-parses
with the two symbols swapped and accepts that value only when formatting it
reproduces the input exactly.  Values are exact rationals. -/

/-- Split a `Decimal` literal body at its (at most one) decimal point. -/
def splitDot : List Char → Option (List Char × List Char)
  | [] => some ([], [])
  | c :: r =>
    if c = '.' then
      if r.contains '.' then none else some ([], r)
    else
      (splitDot r).map (fun p => (c :: p.1, p.2))

/-- Strip an optional leading sign from a `Decimal` literal. -/
def stripSign (l : List Char) : Bool × List Char :=
  match l with
  | a :: r => if a = '-' then (true, r) else if a = '+' then (false, r) else (false, l)
  | [] => (false, l)

/-- Parse a Python `Decimal` literal over the characters that survive the
module's cleaning regex: optional sign, then digits with at most one point and
at least one digit.  Returns (negative?, integer digits, fraction digits). -/
def decParse (l : List Char) : Option (Bool × List Char × List Char) :=
  let sb := stripSign l
  match splitDot sb.2 with
  | none => none
  | some (i, f) =>
    if (i ++ f).all Char.isDigit && !(i ++ f).isEmpty then some (sb.1, i, f) else none

/-- Numeric value of a digit string. -/
def digitsToNat (ds : List Char) : Nat :=
  ds.foldl (fun a c => 10 * a + (c.toNat - 48)) 0

/-- Exact value of a parsed decimal representation:
`± (digits of i ++ f) / 10 ^ |f|`. -/
def repVal (neg : Bool) (i f : List Char) : ℚ :=
  let m : Int := (digitsToNat (i ++ f) : Int)
  mkRat (if neg then -m else m) (10 ^ f.length)

/-- Strip leading zeros of an integer-digit string, keeping at least one digit. -/
def dropLeadZeros (l : List Char) : List Char :=
  match l.dropWhile (fun c => c = '0') with
  | [] => ['0']
  | r => r

/-- Strip trailing zeros (Python `rstrip('0')`). -/
def dropTrailZeros (l : List Char) : List Char :=
  (l.reverse.dropWhile (fun c => c = '0')).reverse

/-- Canonical (normalized) decimal representation, as `format_decimal` prints
it: no leading integer zeros, no trailing fraction zeros, no sign on zero. -/
def canonRep (neg : Bool) (i f : List Char) : Bool × List Char × List Char :=
  let i' := dropLeadZeros i
  let f' := dropTrailZeros f
  if i' = ['0'] ∧ f' = [] then (false, ['0'], []) else (neg, i', f')

/-- A numeric-locale convention: group (thousands) and decimal symbols. -/
structure NumLocale where
  grp : Char
  dec : Char
deriving DecidableEq

/-- The "en" convention: `,` groups, `.` is the decimal point. -/
def enLoc : NumLocale := ⟨',', '.'⟩

/-- The "de" convention: `.` groups, `,` is the decimal point. -/
def deLoc : NumLocale := ⟨'.', ','⟩

/-- Insert the group symbol every three digits, counting from the right
(babel's canonical integer-part grouping). -/
def withSep (g : Char) (ds : List Char) : List Char :=
  let n := ds.length
  ds.enum.flatMap (fun p => if p.1 ≠ 0 ∧ (n - p.1) % 3 = 0 then [g, p.2] else [p.2])

/-- `format_decimal` of a canonical representation in the given locale. -/
def formatLoc (loc : NumLocale) (neg : Bool) (i f : List Char) : List Char :=
  (if neg then ['-'] else []) ++ withSep loc.grp i ++
    (if f.isEmpty then [] else loc.dec :: f)

/-- Model of `babel.numbers.parse_decimal(s, locale, strict=True)`;
`none` models a raised `NumberFormatError`. -/
def parseDecimalStrict (loc : NumLocale) (s : List Char) : Option ℚ :=
  let t := (s.filter (fun c => c ≠ loc.grp)).map (fun c => if c = loc.dec then '.' else c)
  match decParse t with
  | none => none
  | some (neg, i, f) =>
    if s.contains loc.grp then
      let c := canonRep neg i f
      let proper := formatLoc loc c.1 c.2.1 c.2.2
      if s = proper ∨ dropTrailZeros s = proper ++ [loc.dec] then
        some (repVal neg i f)
      else
        let t2 := (s.filter (fun c => c ≠ loc.dec)).map (fun c => if c = loc.grp then '.' else c)
        match decParse t2 with
        | none => none
        | some (neg2, i2, f2) =>
          let c2 := canonRep neg2 i2 f2
          if formatLoc loc c2.1 c2.2.1 c2.2.2 = s then some (repVal neg2 i2 f2) else none
    else some (repVal neg i f)

/-! ### The module's numeric parser (`Event._parse_float_from_detail`, text level) -/

/-- The characters kept by `re.sub(r"[^\,\.\d-]", "", ...)`. -/
def keepChar (c : Char) : Bool :=
  c.isDigit || c = ',' || c = '.' || c = '-'

/-- `re.sub(r"[^\,\.\d-]", "", s)`: strip every character except digits,
comma, period and minus. -/
def cleanChars (s : List Char) : List Char :=
  s.filter keepChar

/-- The trial order of locale conventions: English first when the cleaned text
contains no period, German first otherwise (event.py lines 269-273). -/
def localeOrder (p : List Char) : NumLocale × NumLocale :=
  if p.contains '.' then (deLoc, enLoc) else (enLoc, deLoc)

/-- Text-level body of `Event._parse_float_from_detail` (event.py lines
266-282): clean, pick the trial order, return the first strict parse, and
convert an exact-zero result to `None`. -/
def parseAmount (s : String) : Option ℚ :=
  let p := cleanChars s.data
  let locs := localeOrder p
  match parseDecimalStrict locs.1 p with
  | some r => if r = 0 then none else some r
  | none =>
    match parseDecimalStrict locs.2 p with
    | some r => if r = 0 then none else some r
    | none => none

/-! ### Model of `datetime.fromisoformat`

`Event.from_dict` calls it on the first 19 characters of the raw timestamp, so
only `YYYY-MM-DD`, `YYYY-MM-DD?HH:MM` and `YYYY-MM-DD?HH:MM:SS` (any one-char
separator `?`) can reach it; those are the accepted shapes, with calendar
validation. -/

/-- A `datetime` truncated to second precision. -/
structure PyDateTime where
  year : Nat
  month : Nat
  day : Nat
  hour : Nat
  minute : Nat
  sec : Nat
deriving DecidableEq

/-- Gregorian leap year. -/
def isLeapYear (y : Nat) : Bool :=
  y % 4 = 0 && (y % 100 ≠ 0 || y % 400 = 0)

/-- Days in a month. -/
def daysInMonth (y m : Nat) : Nat :=
  if m = 2 then (if isLeapYear y then 29 else 28)
  else if m = 4 ∨ m = 6 ∨ m = 9 ∨ m = 11 then 30
  else 31

/-- Two-digit field value. -/
def dig2 (a b : Char) : Nat :=
  (a.toNat - 48) * 10 + (b.toNat - 48)

/-- Validate and build a datetime from its numeric fields. -/
def mkDateTime (y mo d h mi s : Nat) : Option PyDateTime :=
  if 1 ≤ y ∧ 1 ≤ mo ∧ mo ≤ 12 ∧ 1 ≤ d ∧ d ≤ daysInMonth y mo ∧
      h ≤ 23 ∧ mi ≤ 59 ∧ s ≤ 59 then
    some ⟨y, mo, d, h, mi, s⟩
  else none

/-- Model of `datetime.fromisoformat` on the shapes reachable after `[:19]`;
`none` models a raised `ValueError`. -/
def fromisoformat (s : String) : Option PyDateTime :=
  match s.data with
  | [y1, y2, y3, y4, c1, m1, m2, c2, d1, d2] =>
    if [y1, y2, y3, y4, m1, m2, d1, d2].all Char.isDigit ∧ c1 = '-' ∧ c2 = '-' then
      mkDateTime (dig2 y1 y2 * 100 + dig2 y3 y4) (dig2 m1 m2) (dig2 d1 d2) 0 0 0
    else none
  | [y1, y2, y3, y4, c1, m1, m2, c2, d1, d2, _, h1, h2, c3, i1, i2] =>
    if [y1, y2, y3, y4, m1, m2, d1, d2, h1, h2, i1, i2].all Char.isDigit ∧
        c1 = '-' ∧ c2 = '-' ∧ c3 = ':' then
      mkDateTime (dig2 y1 y2 * 100 + dig2 y3 y4) (dig2 m1 m2) (dig2 d1 d2)
        (dig2 h1 h2) (dig2 i1 i2) 0
    else none
  | [y1, y2, y3, y4, c1, m1, m2, c2, d1, d2, _, h1, h2, c3, i1, i2, c4, s1, s2] =>
    if [y1, y2, y3, y4, m1, m2, d1, d2, h1, h2, i1, i2, s1, s2].all Char.isDigit ∧
        c1 = '-' ∧ c2 = '-' ∧ c3 = ':' ∧ c4 = ':' then
      mkDateTime (dig2 y1 y2 * 100 + dig2 y3 y4) (dig2 m1 m2) (dig2 d1 d2)
        (dig2 h1 h2) (dig2 i1 i2) (dig2 s1 s2)
    else none
  | _ => none

/-! ### Event types and the classification table (event.py lines 10-82) -/

/-- `PPEventType`: the definite semantic categories. -/
inductive PPEventType where
  | BUY | DEPOSIT | DIVIDEND | FEES | FEES_REFUND | INTEREST | INTEREST_CHARGE
  | REMOVAL | SELL | TAXES | TAX_REFUND | TRANSFER_IN | TRANSFER_OUT
deriving DecidableEq

/-- `ConditionalEventType`: categories needing further downstream context. -/
inductive ConditionalEventType where
  | SAVEBACK | TRADE_INVOICE | STOCK_PERK_REFUNDED
deriving DecidableEq

/-- `EventType`: common supertype of the two enums. -/
inductive EventType where
  | pp (e : PPEventType)
  | cond (c : ConditionalEventType)
deriving DecidableEq

/-- `tr_event_type_mapping` (event.py lines 40-82), in source order. -/
def tr_event_type_mapping : List (String × EventType) := [
  ("INCOMING_TRANSFER", .pp .DEPOSIT),
  ("INCOMING_TRANSFER_DELEGATION", .pp .DEPOSIT),
  ("PAYMENT_INBOUND", .pp .DEPOSIT),
  ("PAYMENT_INBOUND_APPLE_PAY", .pp .DEPOSIT),
  ("PAYMENT_INBOUND_GOOGLE_PAY", .pp .DEPOSIT),
  ("PAYMENT_INBOUND_SEPA_DIRECT_DEBIT", .pp .DEPOSIT),
  ("PAYMENT_INBOUND_CREDIT_CARD", .pp .DEPOSIT),
  ("card_refund", .pp .DEPOSIT),
  ("card_successful_oct", .pp .DEPOSIT),
  ("card_tr_refund", .pp .DEPOSIT),
  ("STOCK_PERK_REFUNDED", .cond .STOCK_PERK_REFUNDED),
  ("SHAREBOOKING_TRANSACTIONAL", .pp .SELL),
  ("SHAREBOOKING", .pp .SELL),
  ("CREDIT", .pp .DIVIDEND),
  ("ssp_corporate_action_invoice_cash", .pp .DIVIDEND),
  ("card_failed_transaction", .pp .REMOVAL),
  ("INTEREST_PAYOUT", .pp .INTEREST),
  ("INTEREST_PAYOUT_CREATED", .pp .INTEREST),
  ("OUTGOING_TRANSFER", .pp .REMOVAL),
  ("OUTGOING_TRANSFER_DELEGATION", .pp .REMOVAL),
  ("PAYMENT_OUTBOUND", .pp .REMOVAL),
  ("card_order_billed", .pp .REMOVAL),
  ("card_successful_atm_withdrawal", .pp .REMOVAL),
  ("card_successful_transaction", .pp .REMOVAL),
  ("benefits_saveback_execution", .cond .SAVEBACK),
  ("TAX_REFUND", .pp .TAX_REFUND),
  ("ssp_tax_correction_invoice", .pp .TAX_REFUND),
  ("ORDER_EXECUTED", .cond .TRADE_INVOICE),
  ("SAVINGS_PLAN_EXECUTED", .cond .TRADE_INVOICE),
  ("SAVINGS_PLAN_INVOICE_CREATED", .cond .TRADE_INVOICE),
  ("benefits_spare_change_execution", .cond .TRADE_INVOICE),
  ("TRADE_INVOICE", .cond .TRADE_INVOICE)]

/-- `tr_event_type_mapping.get(tag, None)`. -/
def lookupEventType (tag : String) : Option EventType :=
  (tr_event_type_mapping.find? (fun p => p.1 = tag)).map Prod.snd

/-! ### The `Event` record and its extraction routines -/

/-- The normalized record built by `Event.from_dict`.  `title`, `subtitle`,
`isin` and `value` hold whatever Python value the code stored (the code does
not coerce them); `isin = none` and `value = none` model Python `None`. -/
structure Event where
  date : PyDateTime
  title : JVal
  subtitle : JVal
  event_type : Option EventType
  fees : Option ℚ
  isin : Option JVal
  note : Option String
  shares : Option ℚ
  taxes : Option ℚ
  value : Option JVal

/-- `Event._parse_float_from_detail` (event.py lines 256-282).  The dictionary
navigation can raise on non-dict/non-string substructure; the numeric part is
`parseAmount`. -/
def Event.parse_float_from_detail (elem : JVal) : Except PyErr (Option ℚ) := do
  let detail ← jgetD elem "detail" (.obj [])
  let textJ ← jgetD detail "text" (.str "")
  let text ← asStr textJ
  pure (parseAmount text)

/-- `Event._parse_type` (event.py lines 126-131).  A non-string `eventType`
value finds no match in the string-keyed table. -/
def Event.parse_type (d : JVal) : Except PyErr (Option EventType) := do
  let etJ ← jgetD d "eventType" (.str "")
  let et : Option EventType :=
    match etJ with
    | .str s => lookupEventType s
    | _ => none
  let stJ ← jgetD d "status" (.str "")
  let st ← asStr stJ
  pure (if pyLower st = "canceled" then none else et)

/-- `Event._valid_isin` (event.py lines 157-159), on character lists. -/
def charsValidIsin (l : List Char) : Bool :=
  l.length = 12 && l.all (fun c => c.isAlpha || c.isDigit) &&
    (match l with
     | a :: b :: _ => a.isUpper && b.isUpper
     | _ => false)

/-- `Event._valid_isin` on strings. -/
def Event.valid_isin (s : String) : Bool :=
  charsValidIsin s.data

/-- Python `s.find(c)` as an optional index (`none` models `-1`). -/
def pyFindIdx (c : Char) : List Char → Option Nat
  | [] => none
  | a :: r => if a = c then some 0 else (pyFindIdx c r).map (· + 1)

/-- The icon fallback of `Event._parse_isin` (event.py lines 151-153):
`isin = icon[icon.find("/") + 1 :]; isin = isin[: isin.find("/")]` with
Python's `find` returning `-1` when absent (so `[: -1]` drops the last
character). -/
def iconSeg (l : List Char) : List Char :=
  let r := match pyFindIdx '/' l with
    | some i => l.drop (i + 1)
    | none => l
  match pyFindIdx '/' r with
  | some j => r.take j
  | none => r.dropLast

/-- The section scan of `Event._parse_isin` (event.py lines 145-148): return
the `payload` of the first truthy `action` whose `type` equals
`"instrumentDetail"`. -/
def Event.isinScan : List JVal → Except PyErr (Option JVal)
  | [] => .ok none
  | sec :: rest => do
    let action ← jgetN sec "action"
    if truthy action then
      let ty ← jgetD action "type" (.obj [])
      if isStr ty "instrumentDetail" then
        let a2 ← jgetD sec "action" (.obj [])
        let p ← jgetN a2 "payload"
        pure (some p)
      else Event.isinScan rest
    else Event.isinScan rest

/-- `Event._parse_isin` (event.py lines 133-155).  The returned `JVal` is the
Python return value (`null` models returning `None`). -/
def Event.parse_isin (d : JVal) : Except PyErr JVal := do
  let details ← jgetD d "details" (.obj [])
  let sectionsJ ← jgetD details "sections" (.arr [.obj []])
  let sections ← asArr sectionsJ
  match ← Event.isinScan sections with
  | some p => pure p
  | none => do
    let iconJ ← jgetD d "icon" (.str "")
    let icon ← asStr iconJ
    let seg := iconSeg icon.data
    pure (if charsValidIsin seg then .str (String.mk seg) else .null)

/-- Coerce to a dict's field list, raising `TypeError` otherwise (the error
`"title" in x` produces on a non-container). -/
def asObj : JVal → Except PyErr (List (String × JVal))
  | .obj fs => .ok fs
  | _ => .error .typeError

/-- Python `x["title"] in titles` (the filter lambdas of event.py lines
176-179, 203, 233): forces the `KeyError` of `x["title"]`. -/
def titleIn (x : JVal) (titles : List String) : Except PyErr Bool := do
  let t ← jindex x "title"
  pure (titles.any (fun s => isStr t s))

/-- `list(filter(lambda x: x["title"] in titles, data))` — eager, so every
entry's `"title"` access happens before any parsing. -/
def filterByTitle (titles : List String) : List JVal → Except PyErr (List JVal)
  | [] => .ok []
  | x :: r => do
    let b ← titleIn x titles
    let rest ← filterByTitle titles r
    pure (if b then x :: rest else rest)

/-- `return_vals[key] = cls._parse_float_from_detail(elem_dict)` applied to
each entry of one matching list in order: later entries overwrite earlier
ones, so the state ends at the parse of the last entry (if any). -/
def lastStore (cur : Option (Option ℚ)) : List JVal → Except PyErr (Option (Option ℚ))
  | [] => .ok cur
  | x :: r => do
    let v ← Event.parse_float_from_detail x
    lastStore (some v) r

/-- The section loop of `Event._parse_shares_and_fees` (event.py lines
173-182), carrying `return_vals` as a pair of optional slots. -/
def Event.sfLoop : List JVal → Option (Option ℚ) × Option (Option ℚ) →
    Except PyErr (Option (Option ℚ) × Option (Option ℚ))
  | [], rv => .ok rv
  | sec :: rest, rv => do
    let t ← jgetN sec "title"
    if isStr t "Transaktion" || isStr t "Transaction" then
      let dataJ ← jindex sec "data"
      let items ← asArr dataJ
      let sd ← filterByTitle ["Aktien", "Anteile", "Shares", "Debited Shares"] items
      let fd ← filterByTitle ["Gebühr", "Fee"] items
      let rvS ← lastStore rv.1 sd
      let rvF ← lastStore rv.2 fd
      Event.sfLoop rest (rvS, rvF)
    else Event.sfLoop rest rv

/-- `Event._parse_shares_and_fees` (event.py lines 161-183). -/
def Event.parse_shares_and_fees (d : JVal) : Except PyErr (Option ℚ × Option ℚ) := do
  let details ← jgetD d "details" (.obj [])
  let sectionsJ ← jgetD details "sections" (.arr [.obj []])
  let sections ← asArr sectionsJ
  let rv ← Event.sfLoop sections (none, none)
  pure (rv.1.join, rv.2.join)

/-- The section loop of `Event._parse_perk_value` (event.py lines 197-209). -/
def Event.perkLoop : List JVal → Option (Option ℚ) → Except PyErr (Option (Option ℚ))
  | [], rv => .ok rv
  | sec :: rest, rv => do
    let t ← jgetN sec "title"
    if isStr t "Transaktion" || isStr t "Transaction" then
      let dataJ ← jindex sec "data"
      let items ← asArr dataJ
      let td ← filterByTitle ["Gesamt", "Total"] items
      let rv' ← lastStore rv td
      Event.perkLoop rest rv'
    else Event.perkLoop rest rv

/-- `Event._parse_perk_value` (event.py lines 185-210). -/
def Event.parse_perk_value (d : JVal) : Except PyErr (Option ℚ) := do
  let details ← jgetD d "details" (.obj [])
  let sectionsJ ← jgetD details "sections" (.arr [.obj []])
  let sections ← asArr sectionsJ
  let rv ← Event.perkLoop sections none
  pure rv.join

/-- The inner entry scan of `Event._parse_taxes` (event.py lines 233-238):
lazy `filter`, so a successful early return skips later entries entirely;
returns the first successfully parsed non-`None` value. -/
def Event.taxItems : List JVal → Except PyErr (Option ℚ)
  | [] => .ok none
  | x :: r => do
    let b ← titleIn x ["Steuer", "Steuern", "Tax", "Taxes"]
    if b then
      match ← Event.parse_float_from_detail x with
      | some q => .ok (some q)
      | none => Event.taxItems r
    else Event.taxItems r

/-- The section scan of `Event._parse_taxes` (event.py lines 227-238): the
section filter guards `"title" in x`, and a missing `"data"` defaults to
`[{}]` (whose element then fails the entry scan's `x["title"]`). -/
def Event.taxSecLoop : List JVal → Except PyErr (Option ℚ)
  | [] => .ok none
  | sec :: rest => do
    let fs ← asObj sec
    let isTx := match jlookup fs "title" with
      | some t => isStr t "Transaktion" || isStr t "Geschäft" || isStr t "Transaction"
      | none => false
    if isTx then
      let dataJ ← jgetD sec "data" (.arr [.obj []])
      let items ← asArr dataJ
      match ← Event.taxItems items with
      | some q => .ok (some q)
      | none => Event.taxSecLoop rest
    else Event.taxSecLoop rest

/-- `Event._parse_taxes` (event.py lines 212-240). -/
def Event.parse_taxes (d : JVal) : Except PyErr (Option ℚ) := do
  let details ← jgetD d "details" (.obj [])
  let sectionsJ ← jgetD details "sections" (.arr [.obj []])
  let sections ← asArr sectionsJ
  Event.taxSecLoop sections

/-- `Event._parse_card_note` (event.py lines 242-254): the note is the raw
type tag itself exactly when it starts with `"card_"`. -/
def Event.parse_card_note (d : JVal) : Except PyErr (Option String) := do
  let etJ ← jgetD d "eventType" (.str "")
  let et ← asStr etJ
  pure (if pyStartsWith et "card_" then some et else none)

/-- The `value` computation of `Event.from_dict` (event.py lines 112-117):
`v if (v := ...get("amount", {}).get("value", None)) is not None and v != 0.0
else None`. -/
def amountValueOpt (v : JVal) : Option JVal :=
  match v with
  | .null => none
  | .num q => if q = 0 then none else some (.num q)
  | w => some w

/-- `Event.from_dict` (event.py lines 98-124), with the source's evaluation
order (timestamp, type, title, subtitle, value, perk override, isin,
shares/fees, taxes, note). -/
def Event.from_dict (d : JVal) : Except PyErr Event := do
  let tsJ ← jindex d "timestamp"
  let ts ← asStr tsJ
  let date ← match fromisoformat (String.mk (ts.data.take 19)) with
    | some dt => Except.ok dt
    | none => Except.error PyErr.valueError
  let event_type ← Event.parse_type d
  let title ← jindex d "title"
  let subtitle ← jindex d "subtitle"
  let amount ← jgetD d "amount" (.obj [])
  let v ← jgetN amount "value"
  let value ← if event_type = some (.cond .STOCK_PERK_REFUNDED) then do
      let pv ← Event.parse_perk_value d
      pure (pv.map JVal.num)
    else pure (amountValueOpt v)
  let isinV ← Event.parse_isin d
  let isin : Option JVal := match isinV with
    | .null => none
    | w => some w
  let sf ← Event.parse_shares_and_fees d
  let taxes ← Event.parse_taxes d
  let note ← Event.parse_card_note d
  pure ⟨date, title, subtitle, event_type, sf.2, isin, note, sf.1, taxes, value⟩

/-! ### Structured raw events

The data model of the spec (§3): a raw event with a timestamp, title,
subtitle, type tag, status, an optional amount value, an icon path and a
sequence of sections, each section carrying an optional title, an optional
action object and a sequence of titled detail entries.  `mkRaw` injects this
shape into the loosely-typed dictionaries the extraction routines consume;
universally quantified claims range over it. -/

/-- A detail entry: a title and an optional `detail.text` string. -/
structure SEntry where
  title : String
  text : Option String
deriving DecidableEq

/-- A section: optional title, optional action object, detail entries. -/
structure SSection where
  title : Option String := none
  action : Option (List (String × JVal)) := none
  data : List SEntry := []

/-- A raw event of the data-model shape. -/
structure SEvent where
  timestamp : String := "2024-01-02T03:04:05"
  title : String := ""
  subtitle : String := ""
  eventType : String := ""
  status : String := ""
  amountValue : JVal := .null
  icon : String := ""
  sections : List SSection := []

/-- An optional string as the Python value `str-or-None`. -/
def jstrOpt : Option String → JVal
  | some s => .str s
  | none => .null

/-- Encode a detail entry as a dictionary. -/
def mkEntry (e : SEntry) : JVal :=
  .obj [("title", .str e.title),
        ("detail", .obj (match e.text with
          | some s => [("text", .str s)]
          | none => []))]

/-- Encode a section as a dictionary. -/
def mkSection (o : SSection) : JVal :=
  .obj [("title", jstrOpt o.title),
        ("action", match o.action with
          | some a => .obj a
          | none => .null),
        ("data", .arr (o.data.map mkEntry))]

/-- Encode a raw event as the dictionary `Event.from_dict` consumes. -/
def mkRaw (ev : SEvent) : JVal :=
  .obj [("timestamp", .str ev.timestamp),
        ("title", .str ev.title),
        ("subtitle", .str ev.subtitle),
        ("eventType", .str ev.eventType),
        ("status", .str ev.status),
        ("amount", .obj [("value", ev.amountValue)]),
        ("icon", .str ev.icon),
        ("details", .obj [("sections", .arr (ev.sections.map mkSection))])]

/-! ### Spec-side descriptions used by the claims -/

/-- The numeric parse of one detail entry (absent text reads as `""`). -/
def entryParse (e : SEntry) : Option ℚ :=
  parseAmount (e.text.getD "")

/-- Section titles scanned by shares/fees (and perk) extraction. -/
def isTransTitle (t : Option String) : Bool :=
  t = some "Transaktion" || t = some "Transaction"

/-- Section titles scanned by taxes extraction. -/
def isTaxSecTitle (t : Option String) : Bool :=
  t = some "Transaktion" || t = some "Geschäft" || t = some "Transaction"

/-- Entry titles contributing to `shares`. -/
def isSharesTitle (e : SEntry) : Bool :=
  ["Aktien", "Anteile", "Shares", "Debited Shares"].any (fun s => e.title = s)

/-- Entry titles contributing to `fees`. -/
def isFeesTitle (e : SEntry) : Bool :=
  ["Gebühr", "Fee"].any (fun s => e.title = s)

/-- Entry titles contributing to `taxes`. -/
def isTaxTitle (e : SEntry) : Bool :=
  ["Steuer", "Steuern", "Tax", "Taxes"].any (fun s => e.title = s)

/-- Entry titles contributing to the perk value. -/
def isTotalTitle (e : SEntry) : Bool :=
  ["Gesamt", "Total"].any (fun s => e.title = s)

/-- The shares-titled entries of transaction sections, in encounter order. -/
def sharesEntries (ss : List SSection) : List SEntry :=
  (ss.filter (fun o => isTransTitle o.title)).flatMap (fun o => o.data.filter isSharesTitle)

/-- The fees-titled entries of transaction sections, in encounter order. -/
def feesEntries (ss : List SSection) : List SEntry :=
  (ss.filter (fun o => isTransTitle o.title)).flatMap (fun o => o.data.filter isFeesTitle)

/-- The tax-titled entries of transaction sections, in encounter order. -/
def taxEntries (ss : List SSection) : List SEntry :=
  (ss.filter (fun o => isTaxSecTitle o.title)).flatMap (fun o => o.data.filter isTaxTitle)

/-- The total-titled entries of transaction sections, in encounter order. -/
def totalEntries (ss : List SSection) : List SEntry :=
  (ss.filter (fun o => isTransTitle o.title)).flatMap (fun o => o.data.filter isTotalTitle)

/-- The payload of a section's action when its type is `"instrumentDetail"`. -/
def actionInstrPayload (o : SSection) : Option JVal :=
  match o.action with
  | none => none
  | some a =>
    match jlookup a "type" with
    | some t =>
      if isStr t "instrumentDetail" then some ((jlookup a "payload").getD .null)
      else none
    | none => none

/-- The payload of the first `instrumentDetail` action among sections. -/
def firstInstrumentPayload (ss : List SSection) : Option JVal :=
  ss.findSome? actionInstrPayload

/-- C5's wording of the icon fallback token: the segment of the icon path
between the first two `/` characters. -/
def specIconSegment (icon : String) : List Char :=
  ((icon.data.dropWhile (fun c => c ≠ '/')).tail).takeWhile (fun c => c ≠ '/')

/-- The icon token the code actually validates: the text after the first `/`
(the whole icon when it has no `/`), up to the next `/` when one follows,
and with the final character dropped when none does. -/
def codeIconToken (icon : String) : List Char :=
  let l := icon.data
  let r := if l.contains '/' then (l.dropWhile (fun c => c ≠ '/')).tail else l
  if r.contains '/' then r.takeWhile (fun c => c ≠ '/') else r.dropLast

/-- C2's wording of the numeric parser: strip decoration, order the two
conventions by presence of a period, and return the value of the first
strictly-parsing convention, absent when neither parses. -/
def claimParse (s : String) : Option ℚ :=
  let p := cleanChars s.data
  let tries := if p.contains '.' then [deLoc, enLoc] else [enLoc, deLoc]
  tries.findSome? (fun loc => parseDecimalStrict loc p)

/-- C2 amended: as `claimParse`, except that a successfully parsed value of
exactly zero is reported as absent. -/
def claimParseAmended (s : String) : Option ℚ :=
  let p := cleanChars s.data
  let tries := if p.contains '.' then [deLoc, enLoc] else [enLoc, deLoc]
  match tries.findSome? (fun loc => parseDecimalStrict loc p) with
  | none => none
  | some r => if r = 0 then none else some r




/-! ### Claim C2: structure of the numeric parser -/

/-- C2 counterexample: on the input `"0"` the first tried convention
(English, as the cleaned text has no period) strictly parses with value `0`,
yet the parser returns absent — so "returning the value of the first
convention that strictly parses the cleaned string" fails as stated. -/
theorem c2_counterexample :
    parseAmount "0" = none ∧ claimParse "0" = some 0 ∧
    parseDecimalStrict enLoc (cleanChars "0".data) = some 0 := by
  refine ⟨by decide, by decide, by decide⟩

/-- C2 (amended): the numeric parser strips all characters except digits,
comma, period and minus; tries English then German when the stripped text has
no period and German then English otherwise; returns the value of the first
convention that strictly parses — except that a parsed value of exactly zero
is reported as absent — and absent if neither parses. -/
theorem c2_parser_structure (s : String) : parseAmount s = claimParseAmended s := by
  simp only [parseAmount, claimParseAmended, localeOrder]
  cases hc : (cleanChars s.data).contains '.' <;>
    simp only [hc, if_true, if_false, Bool.false_eq_true, List.findSome?] <;>
    cases h1 : parseDecimalStrict deLoc (cleanChars s.data) <;>
    cases h2 : parseDecimalStrict enLoc (cleanChars s.data) <;>
    simp [h1, h2]

/-! ### Claim C3: the input "9.400" -/

/-- C3 counterexample: on `"9.400"` the parser does return `9400`, but the
German convention is tried first (the cleaned text contains a period) and
succeeds; the English trial — which the claim says succeeds first — would
have produced `9.4 = 47/5 ≠ 9400`. -/
theorem c3_counterexample :
    parseAmount "9.400" = some 9400 ∧
    localeOrder (cleanChars "9.400".data) = (deLoc, enLoc) ∧
    parseDecimalStrict enLoc (cleanChars "9.400".data) = some (mkRat 47 5) ∧
    mkRat 47 5 ≠ 9400 := by
  refine ⟨by decide, by decide, by decide, by decide⟩

/-- C3 (amended): on `"9.400"` the parser returns `9400.0`, with the German
convention tried first (since the cleaned text contains a period) and
succeeding before the English convention is tried. -/
theorem c3_german_first_succeeds :
    parseAmount "9.400" = some 9400 ∧
    localeOrder (cleanChars "9.400".data) = (deLoc, enLoc) ∧
    parseDecimalStrict deLoc (cleanChars "9.400".data) = some 9400 := by
  refine ⟨by decide, by decide, by decide⟩

/-! ### Claim C8: cleaning and decorated inputs -/

/-- C8: the numeric parser removes every character other than digits, comma,
period and minus before locale parsing — so a decorated input parses exactly
as its stripped text — and in particular `"€11.14"` parses to `11.14` and
`"17,77 €"` to `17.77`. -/
theorem c8_strip_decoration :
    (∀ s : String, parseAmount s = parseAmount (String.mk (cleanChars s.data))) ∧
    parseAmount "€11.14" = some (mkRat 1114 100) ∧
    parseAmount "17,77 €" = some (mkRat 1777 100) := by
  refine ⟨fun s => ?_, by decide, by decide⟩
  simp only [parseAmount]
  have h : cleanChars (String.mk (cleanChars s.data)).data = cleanChars s.data := by
    simp [cleanChars, List.filter_filter]
  rw [h]

/-! ### Claim C9: the card note -/

/-- C9: for every raw event, the note is present exactly when the raw type
tag starts with `"card_"`, and then equals the raw type tag verbatim. -/
theorem c9_note_iff_card (ev : SEvent) :
    Event.parse_card_note (mkRaw ev) =
      .ok (if pyStartsWith ev.eventType "card_" then some ev.eventType else none) := rfl

/-! ### Claim C6: cancellation and unrecognized tags -/

/-- Evaluation of the classifier on a structured raw event. -/
theorem parse_type_mkRaw (ev : SEvent) :
    Event.parse_type (mkRaw ev) =
      .ok (if pyLower ev.status = "canceled" then none
           else lookupEventType ev.eventType) := rfl

/-- C6: a status that lowercases to `"canceled"` makes the category absent for
every tag (overriding any table match), and a tag absent from the table also
yields an absent category, without error. -/
theorem c6_canceled_overrides (ev : SEvent) :
    (pyLower ev.status = "canceled" → Event.parse_type (mkRaw ev) = .ok none) ∧
    (lookupEventType ev.eventType = none → Event.parse_type (mkRaw ev) = .ok none) := by
  refine ⟨fun h => ?_, fun h => ?_⟩
  · rw [parse_type_mkRaw]; simp [h]
  · rw [parse_type_mkRaw]; simp [h]

/-- A canceled event whose tag does sit in the table. -/
def c6ev1 : SEvent := { status := "CanCeled", eventType := "SHAREBOOKING" }

/-- An event with an unrecognized tag. -/
def c6ev2 : SEvent := { eventType := "NOT_A_TAG" }

/-- C6 witness: both hypotheses discharged on concrete events. -/
theorem c6_witness :
    (pyLower c6ev1.status = "canceled" ∧ Event.parse_type (mkRaw c6ev1) = .ok none) ∧
    (lookupEventType c6ev2.eventType = none ∧ Event.parse_type (mkRaw c6ev2) = .ok none) :=
  ⟨⟨by decide, (c6_canceled_overrides c6ev1).1 (by decide)⟩,
   ⟨by decide, (c6_canceled_overrides c6ev2).2 (by decide)⟩⟩

/-! ### Claim C1: which inputs make conversion raise -/

/-- The error component of a conversion result. -/
def errOf {α : Type} : Except PyErr α → Option PyErr
  | .error e => some e
  | .ok _ => none

/-- A raw event with a parseable timestamp, title and subtitle, whose single
section is titled `"Transaktion"` but has no `"data"` key. -/
def c1ev1 : JVal :=
  .obj [("timestamp", .str "2023-01-01T12:00:00"),
        ("title", .str "t"),
        ("subtitle", .str "s"),
        ("details", .obj [("sections", .arr [.obj [("title", .str "Transaktion")]])])]

/-- The same shape with the section titled `"Geschäft"`: the taxes scan's
missing-`data` default `[{}]` sends the bare `{}` into the `x["title"]`
filter. -/
def c1ev2 : JVal :=
  .obj [("timestamp", .str "2023-01-01T12:00:00"),
        ("title", .str "t"),
        ("subtitle", .str "s"),
        ("details", .obj [("sections", .arr [.obj [("title", .str "Geschäft")]])])]

/-- C1: conversion raises on inputs whose timestamp is present and parseable.
A transaction-titled section without a `data` array makes
`_parse_shares_and_fees` raise `KeyError('data')` (event.py line 175), and a
`"Geschäft"`-titled section without `data` makes `_parse_taxes` raise
`KeyError('title')` through its `[{}]` default (event.py lines 232-233) —
although both timestamps parse, contradicting "raises only when the
top-level timestamp is missing or unparseable". -/
theorem c1_missing_data_raises :
    errOf (Event.from_dict c1ev1) = some (.keyError "data") ∧
    errOf (Event.from_dict c1ev2) = some (.keyError "title") ∧
    (fromisoformat "2023-01-01T12:00:00").isSome = true := by
  refine ⟨by decide, by decide, by decide⟩

/-! ### Evaluation lemmas on structured raw events -/

/-- `Except` bind on a success. -/
@[simp] theorem ok_bind {α β : Type} (a : α) (f : α → Except PyErr β) :
    (Except.ok a >>= f) = f a := rfl

/-- `Except` bind on an error. -/
@[simp] theorem error_bind {α β : Type} (e : PyErr) (f : α → Except PyErr β) :
    ((Except.error e : Except PyErr α) >>= f) = .error e := rfl

/-- `pure` into `Except`. -/
@[simp] theorem pure_ok {α : Type} (a : α) :
    (pure a : Except PyErr α) = .ok a := rfl

/-- The float parser on an encoded detail entry never raises and computes
`entryParse`. -/
theorem parse_float_mkEntry (e : SEntry) :
    Event.parse_float_from_detail (mkEntry e) = .ok (entryParse e) := by
  cases e with
  | mk t tx => cases tx <;> rfl

/-- The eager title filter on encoded entries computes the list-level filter. -/
theorem filterByTitle_mkEntry (ts : List String) (es : List SEntry) :
    filterByTitle ts (es.map mkEntry) =
      .ok ((es.filter (fun e => ts.any (fun s => e.title = s))).map mkEntry) := by
  induction es with
  | nil => rfl
  | cons e r ih =>
    have ht : titleIn (mkEntry e) ts = .ok (ts.any (fun s => e.title = s)) := rfl
    simp only [List.map_cons, filterByTitle, ht, ok_bind, ih, pure_ok, List.filter_cons]
    cases hb : ts.any (fun s => e.title = s) <;> simp [hb]

/-- The overwrite semantics of repeated stores: the slot ends at the parse of
the last matching entry, or keeps its initial value when none matches. -/
def lastUpd (cur : Option (Option ℚ)) : List SEntry → Option (Option ℚ)
  | [] => cur
  | e :: r => lastUpd (some (entryParse e)) r

/-- The store loop on encoded entries computes `lastUpd`. -/
theorem lastStore_mkEntry (cur : Option (Option ℚ)) (es : List SEntry) :
    lastStore cur (es.map mkEntry) = .ok (lastUpd cur es) := by
  induction es generalizing cur with
  | nil => rfl
  | cons e r ih =>
    simp only [List.map_cons, lastStore, parse_float_mkEntry, ok_bind, ih, lastUpd]

/-- `lastUpd` in terms of the last element. -/
theorem lastUpd_eq (cur : Option (Option ℚ)) (es : List SEntry) :
    lastUpd cur es =
      (match es.getLast? with
       | some e => some (entryParse e)
       | none => cur) := by
  induction es generalizing cur with
  | nil => rfl
  | cons e r ih =>
    cases r with
    | nil => simp [lastUpd]
    | cons b t =>
      rw [lastUpd, ih, List.getLast?_cons_cons]
      cases h : (b :: t).getLast? with
      | some x => rfl
      | none => simp at h

/-- `lastUpd` over an append. -/
theorem lastUpd_append (cur : Option (Option ℚ)) (a b : List SEntry) :
    lastUpd cur (a ++ b) = lastUpd (lastUpd cur a) b := by
  induction a generalizing cur with
  | nil => rfl
  | cons e r ih => simp [lastUpd, ih]

/-- Python equality of an optional-string value against a string literal. -/
theorem isStr_jstrOpt (t : Option String) (s : String) :
    isStr (jstrOpt t) s = decide (t = some s) := by
  cases t <;> simp [isStr, jstrOpt]

/-- The code's shares/fees section-title test equals `isTransTitle`. -/
theorem transCond_eq (t : Option String) :
    (isStr (jstrOpt t) "Transaktion" || isStr (jstrOpt t) "Transaction") = isTransTitle t := by
  simp [isStr_jstrOpt, isTransTitle]

/-- The shares filter on structured entries. -/
theorem filterShares (es : List SEntry) :
    filterByTitle ["Aktien", "Anteile", "Shares", "Debited Shares"] (es.map mkEntry) =
      .ok ((es.filter isSharesTitle).map mkEntry) :=
  filterByTitle_mkEntry _ es

/-- The fees filter on structured entries. -/
theorem filterFees (es : List SEntry) :
    filterByTitle ["Gebühr", "Fee"] (es.map mkEntry) =
      .ok ((es.filter isFeesTitle).map mkEntry) :=
  filterByTitle_mkEntry _ es

/-- The shares/fees section loop on structured sections computes the two
last-match slots. -/
theorem sfLoop_mkSection (ss : List SSection) (rv : Option (Option ℚ) × Option (Option ℚ)) :
    Event.sfLoop (ss.map mkSection) rv =
      .ok (lastUpd rv.1 (sharesEntries ss), lastUpd rv.2 (feesEntries ss)) := by
  induction ss generalizing rv with
  | nil => rfl
  | cons o r ih =>
    have hti : jgetN (mkSection o) "title" = .ok (jstrOpt o.title) := rfl
    have hda : jindex (mkSection o) "data" = .ok (.arr (o.data.map mkEntry)) := rfl
    simp only [List.map_cons, Event.sfLoop, hti, ok_bind, transCond_eq]
    cases htr : isTransTitle o.title with
    | false =>
      simp only [Bool.false_eq_true, if_false, ih]
      simp [sharesEntries, feesEntries, List.filter_cons, htr]
    | true =>
      simp only [if_true, hda, ok_bind, asArr, filterShares, filterFees, lastStore_mkEntry, ih]
      simp [sharesEntries, feesEntries, List.filter_cons, htr, List.flatMap_cons, lastUpd_append]

/-- `Event._parse_shares_and_fees` on a structured event: `shares` and `fees`
are the parses of the last matching entries (absent when none matches). -/
theorem sharesFees_mkRaw (ev : SEvent) :
    Event.parse_shares_and_fees (mkRaw ev) =
      .ok ((sharesEntries ev.sections).getLast?.bind entryParse,
           (feesEntries ev.sections).getLast?.bind entryParse) := by
  have h0 : jgetD (mkRaw ev) "details" (.obj []) =
      .ok (.obj [("sections", .arr (ev.sections.map mkSection))]) := rfl
  have h1 : jgetD (JVal.obj [("sections", .arr (ev.sections.map mkSection))])
      "sections" (.arr [.obj []]) = .ok (.arr (ev.sections.map mkSection)) := rfl
  simp only [Event.parse_shares_and_fees, h0, ok_bind, h1, asArr, sfLoop_mkSection,
    lastUpd_eq, pure_ok]
  cases hs : (sharesEntries ev.sections).getLast? <;>
    cases hf : (feesEntries ev.sections).getLast? <;>
    simp [hs, hf]

/-- `List.findSome?` over an append scans the left part first. -/
theorem findSome?_append {α β : Type} (f : α → Option β) (l1 l2 : List α) :
    (l1 ++ l2).findSome? f =
      (match l1.findSome? f with
       | some b => some b
       | none => l2.findSome? f) := by
  induction l1 with
  | nil => simp [List.findSome?]
  | cons a t ih =>
    simp only [List.cons_append, List.findSome?]
    cases f a <;> simp [ih]

/-- The inner taxes scan on structured entries returns the first successfully
parsed value among tax-titled entries. -/
theorem taxItems_mkEntry (es : List SEntry) :
    Event.taxItems (es.map mkEntry) = .ok ((es.filter isTaxTitle).findSome? entryParse) := by
  induction es with
  | nil => rfl
  | cons e r ih =>
    have ht : titleIn (mkEntry e) ["Steuer", "Steuern", "Tax", "Taxes"] =
        .ok (isTaxTitle e) := rfl
    simp only [List.map_cons, Event.taxItems, ht, ok_bind, List.filter_cons]
    cases hb : isTaxTitle e with
    | false => simpa [hb] using ih
    | true =>
      simp only [hb, if_true, parse_float_mkEntry, ok_bind]
      cases hp : entryParse e <;> simp [List.findSome?, hp, ih]

/-- The code's taxes section-title test equals `isTaxSecTitle`. -/
theorem taxCond_eq (o : SSection) :
    (match jlookup [("title", jstrOpt o.title),
        ("action", match o.action with | some a => JVal.obj a | none => JVal.null),
        ("data", JVal.arr (o.data.map mkEntry))] "title" with
     | some t => isStr t "Transaktion" || isStr t "Geschäft" || isStr t "Transaction"
     | none => false) = isTaxSecTitle o.title := by
  simp [jlookup, isStr_jstrOpt, isTaxSecTitle]

/-- The taxes section scan on structured sections returns the first
successfully parsed value among tax entries of transaction sections. -/
theorem taxSecLoop_mkSection (ss : List SSection) :
    Event.taxSecLoop (ss.map mkSection) = .ok ((taxEntries ss).findSome? entryParse) := by
  induction ss with
  | nil => rfl
  | cons o r ih =>
    have ho : asObj (mkSection o) = .ok [("title", jstrOpt o.title),
        ("action", match o.action with | some a => JVal.obj a | none => JVal.null),
        ("data", JVal.arr (o.data.map mkEntry))] := rfl
    have hda : jgetD (mkSection o) "data" (.arr [.obj []]) =
        .ok (.arr (o.data.map mkEntry)) := rfl
    simp only [List.map_cons, Event.taxSecLoop, ho, ok_bind, taxCond_eq]
    cases htr : isTaxSecTitle o.title with
    | false =>
      simp only [Bool.false_eq_true, if_false, ih]
      simp [taxEntries, List.filter_cons, htr]
    | true =>
      simp only [if_true, hda, ok_bind, asArr, taxItems_mkEntry]
      have hre : taxEntries (o :: r) = o.data.filter isTaxTitle ++ taxEntries r := by
        simp [taxEntries, List.filter_cons, htr, List.flatMap_cons]
      rw [hre, findSome?_append]
      cases hfs : (o.data.filter isTaxTitle).findSome? entryParse <;> simp [hfs, ih]

/-- `Event._parse_taxes` on a structured event: the first successfully parsed
tax entry, in encounter order. -/
theorem taxes_mkRaw (ev : SEvent) :
    Event.parse_taxes (mkRaw ev) = .ok ((taxEntries ev.sections).findSome? entryParse) := by
  have h0 : jgetD (mkRaw ev) "details" (.obj []) =
      .ok (.obj [("sections", .arr (ev.sections.map mkSection))]) := rfl
  have h1 : jgetD (JVal.obj [("sections", .arr (ev.sections.map mkSection))])
      "sections" (.arr [.obj []]) = .ok (.arr (ev.sections.map mkSection)) := rfl
  simp only [Event.parse_taxes, h0, ok_bind, h1, asArr, taxSecLoop_mkSection]

/-! ### Claim C4: taxes are first-match, shares/fees are last-match -/

/-- C4: taxes extraction returns the first successfully parsed non-absent
value among tax-titled entries of Transaktion/Geschäft/Transaction sections in
encounter order (`List.findSome?`), while shares and fees extraction returns
the parse of the last matching entry (`List.getLast?`), later matches
overwriting earlier ones — opposite orderings. -/
theorem c4_first_vs_last (ev : SEvent) :
    Event.parse_taxes (mkRaw ev) = .ok ((taxEntries ev.sections).findSome? entryParse) ∧
    Event.parse_shares_and_fees (mkRaw ev) =
      .ok ((sharesEntries ev.sections).getLast?.bind entryParse,
           (feesEntries ev.sections).getLast?.bind entryParse) :=
  ⟨taxes_mkRaw ev, sharesFees_mkRaw ev⟩

/-! ### Claim C10: a later failed parse overwrites an earlier success -/

/-- C10: when the fees-titled entries of the transaction sections end with an
entry `e2` whose text fails to parse (or parses to exactly zero), the `fees`
field is absent, even though an earlier entry `e1` parsed successfully — the
later entry's parse result overwrites the earlier one.  (The shares slot is
symmetric, driven by the same store loop.) -/
theorem c10_later_overwrites (ev : SEvent) (pre mid : List SEntry) (e1 e2 : SEntry) (v : ℚ)
    (h : feesEntries ev.sections = pre ++ e1 :: (mid ++ [e2]))
    (h1 : entryParse e1 = some v) (h2 : entryParse e2 = none) :
    Event.parse_shares_and_fees (mkRaw ev) =
      .ok ((sharesEntries ev.sections).getLast?.bind entryParse, none) := by
  rw [sharesFees_mkRaw, h]
  have hlast : (pre ++ e1 :: (mid ++ [e2])).getLast? = some e2 := by
    have : pre ++ e1 :: (mid ++ [e2]) = (pre ++ e1 :: mid) ++ [e2] := by simp
    rw [this, List.getLast?_concat]
  rw [hlast]
  simp [h2]

/-- The event for the C10 witness: one transaction section whose two
fee-titled entries are a parseable amount then an unparseable text. -/
def c10ev : SEvent :=
  { sections := [{ title := some "Transaktion",
                   data := [⟨"Fee", some "17,77 €"⟩, ⟨"Fee", some "n/a"⟩] }] }

/-- C10 witness: the hypotheses hold on `c10ev` and the fees field is absent. -/
theorem c10_witness :
    Event.parse_shares_and_fees (mkRaw c10ev) =
      .ok ((sharesEntries c10ev.sections).getLast?.bind entryParse, none) :=
  c10_later_overwrites c10ev [] [] ⟨"Fee", some "17,77 €"⟩ ⟨"Fee", some "n/a"⟩
    (mkRat 1777 100) (by decide) (by decide) (by decide)

/-! ### Claim C5: ISIN extraction -/

/-- The action scan on structured sections finds the first
`instrumentDetail` payload. -/
theorem isinScan_mkSection (ss : List SSection) :
    Event.isinScan (ss.map mkSection) = .ok (firstInstrumentPayload ss) := by
  induction ss with
  | nil => rfl
  | cons o r ih =>
    have ha : jgetN (mkSection o) "action" =
        .ok (match o.action with | some a => JVal.obj a | none => JVal.null) := rfl
    have ha2 : jgetD (mkSection o) "action" (.obj []) =
        .ok (match o.action with | some a => JVal.obj a | none => JVal.null) := rfl
    simp only [List.map_cons, Event.isinScan, ha, ok_bind, firstInstrumentPayload,
      List.findSome?]
    cases hact : o.action with
    | none =>
      simp only [truthy, Bool.false_eq_true, if_false]
      simpa [actionInstrPayload, hact, firstInstrumentPayload] using ih
    | some a =>
      cases a with
      | nil =>
        simp only [truthy, List.isEmpty_nil, Bool.not_true, Bool.false_eq_true, if_false]
        simpa [actionInstrPayload, hact, jlookup, firstInstrumentPayload] using ih
      | cons kv rest =>
        simp only [truthy, List.isEmpty_cons, Bool.not_false, if_true, ha2, ok_bind]
        have hty : jgetD (JVal.obj (kv :: rest)) "type" (.obj []) =
            .ok ((jlookup (kv :: rest) "type").getD (.obj [])) := rfl
        rw [hty]
        simp only [ok_bind]
        cases hl : jlookup (kv :: rest) "type" with
        | none =>
          simp only [Option.getD, isStr, Bool.false_eq_true, if_false]
          simpa [actionInstrPayload, hact, hl, firstInstrumentPayload] using ih
        | some t =>
          cases hs : isStr t "instrumentDetail" with
          | false =>
            simp only [Option.getD, hs, Bool.false_eq_true, if_false]
            simpa [actionInstrPayload, hact, hl, hs, firstInstrumentPayload] using ih
          | true =>
            simp only [Option.getD, hs, if_true, jgetN, hact, ok_bind]
            have hp : jgetD (JVal.obj (kv :: rest)) "payload" .null =
                .ok ((jlookup (kv :: rest) "payload").getD .null) := rfl
            rw [hp]
            simp [actionInstrPayload, hact, hl, hs]

/-- `pyFindIdx` misses exactly when the character does not occur. -/
theorem pyFindIdx_none_iff (c : Char) (l : List Char) :
    pyFindIdx c l = none ↔ l.contains c = false := by
  induction l with
  | nil => simp [pyFindIdx]
  | cons a t ih =>
    by_cases hac : a = c
    · subst hac
      simp [pyFindIdx]
    · simp [pyFindIdx, hac, ih, Ne.symm hac]

/-- Python `find`-then-drop equals drop-past-the-first-occurrence. -/
theorem pyFind_drop (c : Char) (l : List Char) :
    (match pyFindIdx c l with
     | some i => l.drop (i + 1)
     | none => l) =
      (if l.contains c then (l.dropWhile (fun x => x ≠ c)).tail else l) := by
  induction l with
  | nil => rfl
  | cons a t ih =>
    by_cases hac : a = c
    · subst hac
      simp [pyFindIdx, List.dropWhile_cons]
    · cases hf : pyFindIdx c t with
      | none =>
        have hmem : ¬c ∈ t := by simpa using (pyFindIdx_none_iff c t).mp hf
        simp [pyFindIdx, hac, hf, hmem, Ne.symm hac]
      | some i =>
        have hct : t.contains c = true := by
          cases h' : t.contains c with
          | true => rfl
          | false => rw [(pyFindIdx_none_iff c t).mpr h'] at hf; cases hf
        have hmem : c ∈ t := by simpa using hct
        have ih' : t.drop (i + 1) = (t.dropWhile (fun x => x ≠ c)).tail := by
          rw [hf] at ih
          simpa [hmem] using ih
        simp [pyFindIdx, hac, hf, hmem, List.dropWhile_cons, ih']

/-- Python `find`-then-take equals take-up-to-the-first-occurrence (with the
`-1` slice dropping the last element when the character is absent). -/
theorem pyFind_take (c : Char) (l : List Char) :
    (match pyFindIdx c l with
     | some j => l.take j
     | none => l.dropLast) =
      (if l.contains c then l.takeWhile (fun x => x ≠ c) else l.dropLast) := by
  induction l with
  | nil => rfl
  | cons a t ih =>
    by_cases hac : a = c
    · subst hac
      simp [pyFindIdx, List.takeWhile_cons]
    · cases hf : pyFindIdx c t with
      | none =>
        have hmem : ¬c ∈ t := by simpa using (pyFindIdx_none_iff c t).mp hf
        simp [pyFindIdx, hac, hf, hmem, Ne.symm hac]
      | some j =>
        have hct : t.contains c = true := by
          cases h' : t.contains c with
          | true => rfl
          | false => rw [(pyFindIdx_none_iff c t).mpr h'] at hf; cases hf
        have hmem : c ∈ t := by simpa using hct
        have ih' : t.take j = t.takeWhile (fun x => x ≠ c) := by
          rw [hf] at ih
          simpa [hmem] using ih
        simp [pyFindIdx, hac, hf, hmem, List.takeWhile_cons, ih']

/-- The icon slicing of the code equals its `dropWhile`/`takeWhile`/`dropLast`
description. -/
theorem iconSeg_eq (icon : String) : iconSeg icon.data = codeIconToken icon := by
  simp only [iconSeg, codeIconToken]
  rw [pyFind_drop, pyFind_take]

/-- C5 (amended): ISIN extraction returns the payload of the first section
action whose type equals `"instrumentDetail"`, unvalidated, whenever one
exists; only otherwise does it fall back to the icon token — the text after
the first `/` up to the next `/` when one follows, and with the final
character dropped when none does — returned only if it is exactly 12
alphanumeric characters with the first two uppercase letters, absent
otherwise. -/
theorem c5_isin_extraction (ev : SEvent) :
    Event.parse_isin (mkRaw ev) =
      .ok (match firstInstrumentPayload ev.sections with
           | some p => p
           | none =>
             if charsValidIsin (codeIconToken ev.icon) then
               .str (String.mk (codeIconToken ev.icon))
             else .null) := by
  have h0 : jgetD (mkRaw ev) "details" (.obj []) =
      .ok (.obj [("sections", .arr (ev.sections.map mkSection))]) := rfl
  have h1 : jgetD (JVal.obj [("sections", .arr (ev.sections.map mkSection))])
      "sections" (.arr [.obj []]) = .ok (.arr (ev.sections.map mkSection)) := rfl
  have h2 : jgetD (mkRaw ev) "icon" (.str "") = .ok (.str ev.icon) := rfl
  simp only [Event.parse_isin, h0, ok_bind, h1, asArr, isinScan_mkSection]
  cases hp : firstInstrumentPayload ev.sections with
  | some p => simp [hp]
  | none => simp only [hp, h2, ok_bind, asStr, iconSeg_eq, pure_ok]

/-- The event for the C5 counterexample: no action anywhere, and an icon with
a single `/` whose tail has 13 characters. -/
def c5ev : SEvent := { icon := "a/AB1234567890X" }

/-- C5 counterexample: no `instrumentDetail` action exists, and the segment
between the first two `/` characters of the icon is the 13-character
`"AB1234567890X"`, which fails validation — so the claim says the result is
absent — yet extraction returns `"AB1234567890"`: with no second `/`,
Python's `find` returns `-1` and the `[: -1]` slice drops the final
character instead. -/
theorem c5_counterexample :
    Event.parse_isin (mkRaw c5ev) = .ok (.str "AB1234567890") ∧
    firstInstrumentPayload c5ev.sections = none ∧
    specIconSegment c5ev.icon = "AB1234567890X".data ∧
    charsValidIsin (specIconSegment c5ev.icon) = false := by
  refine ⟨rfl, rfl, by decide, by decide⟩

/-! ### Claim C7: parsed zeros become absent -/

/-- A digit character of numeric value zero is `'0'`. -/
theorem digit_char_zero {c : Char} (h : c.isDigit = true) :
    (c.toNat - 48 = 0) ↔ c = '0' := by
  constructor
  · intro h0
    have hb : 48 ≤ c.toNat ∧ c.toNat ≤ 57 := by
      simp only [Char.isDigit, Bool.and_eq_true, decide_eq_true_eq, Char.le_def] at h
      exact h
    have h48 : c.toNat = 48 := by omega
    rw [← Char.ofNat_toNat c, h48]
  · intro h0
    subst h0
    rfl

/-- A digit string evaluates to zero exactly when every digit is `'0'`
(generalized over the fold accumulator). -/
theorem foldl_digits_zero (ds : List Char) :
    ds.all Char.isDigit = true → ∀ a : Nat,
      ((ds.foldl (fun a c => 10 * a + (c.toNat - 48)) a = 0) ↔
        (a = 0 ∧ ds.all (fun c => c = '0') = true)) := by
  induction ds with
  | nil =>
    intro _ a
    simp
  | cons c t ih =>
    intro h a
    simp only [List.all_cons, Bool.and_eq_true] at h
    simp only [List.foldl_cons, List.all_cons, Bool.and_eq_true]
    rw [ih h.2]
    constructor
    · rintro ⟨h1, h2⟩
      have hc : c.toNat - 48 = 0 := by omega
      refine ⟨by omega, ?_, h2⟩
      simpa using (digit_char_zero h.1).mp hc
    · rintro ⟨ha, hc, h2⟩
      subst ha
      have : c.toNat - 48 = 0 := (digit_char_zero h.1).mpr (by simpa using hc)
      simp [this, h2]

/-- `digitsToNat` is zero exactly on all-`'0'` digit strings. -/
theorem digitsToNat_zero {ds : List Char} (h : ds.all Char.isDigit = true) :
    (digitsToNat ds = 0) ↔ ds.all (fun c => c = '0') = true := by
  simpa [digitsToNat] using foldl_digits_zero ds h 0

/-- Filtering out a character that does not occur is the identity. -/
theorem filter_ne_self {c : Char} {l : List Char} (h : l.contains c = false) :
    l.filter (fun x => x ≠ c) = l := by
  induction l with
  | nil => rfl
  | cons a t ih =>
    simp only [List.contains_cons, Bool.or_eq_false_iff, beq_eq_false_iff_ne] at h
    have hstep : List.filter (fun x => decide (x ≠ c)) (a :: t) =
        a :: List.filter (fun x => decide (x ≠ c)) t := by
      simp [List.filter_cons, Ne.symm h.1]
    rw [hstep, ih h.2]

/-- `splitDot` returns the non-point characters, in order. -/
theorem splitDot_digits (l i f : List Char) (h : splitDot l = some (i, f)) :
    i ++ f = l.filter (fun c => c ≠ '.') := by
  induction l generalizing i f with
  | nil =>
    simp only [splitDot, Option.some.injEq, Prod.mk.injEq] at h
    simp [← h.1, ← h.2]
  | cons a t ih =>
    by_cases hac : a = '.'
    · subst hac
      rw [show splitDot ('.' :: t) = if t.contains '.' then none else some ([], t)
        from rfl] at h
      cases hct : t.contains '.' with
      | true => rw [hct] at h; simp at h
      | false =>
        rw [hct] at h
        simp only [Bool.false_eq_true, if_false, Option.some.injEq, Prod.mk.injEq] at h
        rw [← h.1, ← h.2]
        have hdot : List.filter (fun c => decide (c ≠ '.')) ('.' :: t) =
            List.filter (fun c => decide (c ≠ '.')) t := by
          simp [List.filter_cons]
        rw [hdot, filter_ne_self hct]
        rfl
    · simp only [splitDot, if_neg hac] at h
      cases hsp : splitDot t with
      | none => rw [hsp] at h; simp at h
      | some p =>
        rw [hsp] at h
        simp only [Option.map_some', Option.some.injEq, Prod.mk.injEq] at h
        rw [← h.1, ← h.2]
        have hstep : List.filter (fun c => decide (c ≠ '.')) (a :: t) =
            a :: List.filter (fun c => decide (c ≠ '.')) t := by
          simp [List.filter_cons, hac]
        rw [hstep, List.cons_append, ih p.1 p.2 (by rw [hsp])]

/-- Stripping a sign does not change the digit content. -/
theorem stripSign_filter (l : List Char) :
    ((stripSign l).2).filter Char.isDigit = l.filter Char.isDigit := by
  cases l with
  | nil => rfl
  | cons a r =>
    by_cases h1 : a = '-'
    · subst h1
      simp [stripSign, List.filter_cons]
    · by_cases h2 : a = '+'
      · subst h2
        simp [stripSign, List.filter_cons]
      · simp [stripSign, h1, h2]

/-- When every non-point character is a digit, filtering digits and filtering
out the point agree. -/
theorem filter_digit_eq (l : List Char)
    (h : (l.filter (fun c => c ≠ '.')).all Char.isDigit = true) :
    l.filter Char.isDigit = l.filter (fun c => c ≠ '.') := by
  induction l with
  | nil => rfl
  | cons a t ih =>
    by_cases ha : a = '.'
    · subst ha
      have hskip : List.filter (fun c => decide (c ≠ '.')) ('.' :: t) =
          List.filter (fun c => decide (c ≠ '.')) t := by
        simp [List.filter_cons]
      rw [hskip] at h
      have hdig : List.filter Char.isDigit ('.' :: t) = List.filter Char.isDigit t := by
        simp [List.filter_cons]
      rw [hdig, hskip, ih h]
    · have hkeep : List.filter (fun c => decide (c ≠ '.')) (a :: t) =
          a :: List.filter (fun c => decide (c ≠ '.')) t := by
        simp [List.filter_cons, ha]
      rw [hkeep] at h
      simp only [List.all_cons, Bool.and_eq_true] at h
      have hda : List.filter Char.isDigit (a :: t) = a :: List.filter Char.isDigit t := by
        simp [List.filter_cons, h.1]
      rw [hda, hkeep, ih h.2]

/-- A successful `decParse` consists of digits and returns exactly the digit
characters of its input. -/
theorem decParse_digits (l : List Char) (neg : Bool) (i f : List Char)
    (h : decParse l = some (neg, i, f)) :
    (i ++ f).all Char.isDigit = true ∧ i ++ f = l.filter Char.isDigit := by
  simp only [decParse] at h
  split at h
  · cases h
  · rename_i pi pf heq
    split at h
    · rename_i hcond
      simp only [Option.some.injEq, Prod.mk.injEq] at h
      obtain ⟨-, h2, h3⟩ := h
      subst h2
      subst h3
      simp only [Bool.and_eq_true] at hcond
      refine ⟨hcond.1, ?_⟩
      have hd := splitDot_digits _ _ _ heq
      rw [hd, ← filter_digit_eq _ (by rw [← hd]; exact hcond.1), stripSign_filter]
    · cases h

/-- Removing a non-digit symbol and replacing a non-digit symbol by `'.'`
preserves the digit characters. -/
theorem cleanFilter_digits (g d : Char) (hg : g.isDigit = false) (hd : d.isDigit = false)
    (s : List Char) :
    ((s.filter (fun c => c ≠ g)).map (fun c => if c = d then '.' else c)).filter Char.isDigit
      = s.filter Char.isDigit := by
  induction s with
  | nil => rfl
  | cons a t ih =>
    by_cases hag : a = g
    · have h1 : (a :: t).filter (fun c => decide (c ≠ g)) =
          t.filter (fun c => decide (c ≠ g)) := by
        simp [List.filter_cons, hag]
      have h2 : (a :: t).filter Char.isDigit = t.filter Char.isDigit := by
        simp [List.filter_cons, hag ▸ hg]
      rw [h1, h2, ih]
    · have hkeep : (a :: t).filter (fun c => decide (c ≠ g)) =
          a :: t.filter (fun c => decide (c ≠ g)) := by
        simp [List.filter_cons, hag]
      rw [hkeep, List.map_cons]
      by_cases had : a = d
      · have h3 : (if a = d then '.' else a) = '.' := by rw [if_pos had]
        rw [h3]
        have h4 : List.filter Char.isDigit
            ('.' :: (t.filter (fun c => decide (c ≠ g))).map (fun c => if c = d then '.' else c)) =
            ((t.filter (fun c => decide (c ≠ g))).map
              (fun c => if c = d then '.' else c)).filter Char.isDigit := by
          simp [List.filter_cons]
        have h5 : List.filter Char.isDigit (a :: t) = List.filter Char.isDigit t := by
          simp [List.filter_cons, had ▸ hd]
        rw [h4, h5, ih]
      · have h3 : (if a = d then '.' else a) = a := by rw [if_neg had]
        rw [h3]
        cases hdig : a.isDigit with
        | true =>
          have hL : List.filter Char.isDigit
              (a :: (t.filter (fun c => decide (c ≠ g))).map (fun c => if c = d then '.' else c)) =
              a :: ((t.filter (fun c => decide (c ≠ g))).map
                (fun c => if c = d then '.' else c)).filter Char.isDigit := by
            simp [List.filter_cons, hdig]
          have hR : List.filter Char.isDigit (a :: t) = a :: List.filter Char.isDigit t := by
            simp [List.filter_cons, hdig]
          rw [hL, hR, ih]
        | false =>
          have hL : List.filter Char.isDigit
              (a :: (t.filter (fun c => decide (c ≠ g))).map (fun c => if c = d then '.' else c)) =
              ((t.filter (fun c => decide (c ≠ g))).map
                (fun c => if c = d then '.' else c)).filter Char.isDigit := by
            simp [List.filter_cons, hdig]
          have hR : List.filter Char.isDigit (a :: t) = List.filter Char.isDigit t := by
            simp [List.filter_cons, hdig]
          rw [hL, hR, ih]

/-- `repVal` is zero exactly when its digit string evaluates to zero. -/
theorem repVal_zero (neg : Bool) (i f : List Char) :
    repVal neg i f = 0 ↔ digitsToNat (i ++ f) = 0 := by
  have hden : (10 : ℕ) ^ f.length ≠ 0 := by positivity
  cases neg <;> simp [repVal, Rat.mkRat_eq_zero hden]

/-- A strict parse yields zero exactly when every digit of the input is
`'0'` (for locales whose two symbols are non-digits). -/
theorem parseDecimalStrict_zero (loc : NumLocale) (hg : loc.grp.isDigit = false)
    (hd : loc.dec.isDigit = false) (s : List Char) (q : ℚ)
    (h : parseDecimalStrict loc s = some q) :
    (q = 0 ↔ (s.filter Char.isDigit).all (fun c => c = '0') = true) := by
  simp only [parseDecimalStrict] at h
  split at h
  · cases h
  · rename_i neg i f heq
    have hdig := decParse_digits _ _ _ _ heq
    have hif : i ++ f = s.filter Char.isDigit := by
      rw [hdig.2, cleanFilter_digits loc.grp loc.dec hg hd]
    split at h
    · split at h
      · simp only [Option.some.injEq] at h
        rw [← h, repVal_zero, ← hif, digitsToNat_zero hdig.1]
      · split at h
        · cases h
        · rename_i neg2 i2 f2 heq2
          have hdig2 := decParse_digits _ _ _ _ heq2
          have hif2 : i2 ++ f2 = s.filter Char.isDigit := by
            rw [hdig2.2, cleanFilter_digits loc.dec loc.grp hd hg]
          split at h
          · simp only [Option.some.injEq] at h
            rw [← h, repVal_zero, ← hif2, digitsToNat_zero hdig2.1]
          · cases h
    · simp only [Option.some.injEq] at h
      rw [← h, repVal_zero, ← hif, digitsToNat_zero hdig.1]

/-- The module's numeric parser never returns an exact zero. -/
theorem parseAmount_ne_zero (s : String) : parseAmount s ≠ some 0 := by
  simp only [parseAmount]
  split
  · rename_i r heq
    by_cases hr : r = 0 <;> simp [hr]
  · split
    · rename_i r heq
      by_cases hr : r = 0 <;> simp [hr]
    · simp

/-- Both trial locales have non-digit symbols. -/
theorem localeOrder_nondigit (p : List Char) :
    ((localeOrder p).1.grp.isDigit = false ∧ (localeOrder p).1.dec.isDigit = false) ∧
    ((localeOrder p).2.grp.isDigit = false ∧ (localeOrder p).2.dec.isDigit = false) := by
  unfold localeOrder
  split <;> exact ⟨⟨by decide, by decide⟩, ⟨by decide, by decide⟩⟩

/-- Text that strictly parses to zero under either convention is reported as
absent by the numeric parser. -/
theorem parseAmount_zero_text (s : String)
    (h : parseDecimalStrict enLoc (cleanChars s.data) = some 0 ∨
         parseDecimalStrict deLoc (cleanChars s.data) = some 0) :
    parseAmount s = none := by
  have hzeros : ((cleanChars s.data).filter Char.isDigit).all (fun c => c = '0') = true := by
    cases h with
    | inl h => exact (parseDecimalStrict_zero enLoc (by decide) (by decide) _ _ h).mp rfl
    | inr h => exact (parseDecimalStrict_zero deLoc (by decide) (by decide) _ _ h).mp rfl
  have hz : ∀ loc : NumLocale, loc.grp.isDigit = false → loc.dec.isDigit = false →
      ∀ q, parseDecimalStrict loc (cleanChars s.data) = some q → q = 0 := by
    intro loc hg hd q hq
    exact (parseDecimalStrict_zero loc hg hd _ _ hq).mpr hzeros
  simp only [parseAmount]
  split
  · rename_i r heq
    have hr : r = 0 :=
      hz _ (localeOrder_nondigit _).1.1 (localeOrder_nondigit _).1.2 r heq
    simp [hr]
  · split
    · rename_i r heq
      have hr : r = 0 :=
        hz _ (localeOrder_nondigit _).2.1 (localeOrder_nondigit _).2.2 r heq
      simp [hr]
    · rfl

/-- Decompose a successful `Except` bind. -/
theorem exceptBind_ok {α β : Type} {x : Except PyErr α} {f : α → Except PyErr β} {b : β}
    (h : x >>= f = .ok b) : ∃ a, x = .ok a ∧ f a = .ok b := by
  cases x with
  | error e => simp at h
  | ok a => exact ⟨a, rfl, by simpa using h⟩

/-- A successful detail parse is never an exact zero. -/
theorem parse_float_ok_ne_zero {x : JVal} {r : Option ℚ}
    (h : Event.parse_float_from_detail x = .ok r) : r ≠ some 0 := by
  simp only [Event.parse_float_from_detail] at h
  obtain ⟨d1, hd1, h⟩ := exceptBind_ok h
  obtain ⟨d2, hd2, h⟩ := exceptBind_ok h
  obtain ⟨t, ht, h⟩ := exceptBind_ok h
  simp only [pure_ok, Except.ok.injEq] at h
  rw [← h]
  exact parseAmount_ne_zero t

/-- The store loop preserves "the slot is not an exact zero". -/
theorem lastStore_ne_zero {l : List JVal} {cur res : Option (Option ℚ)}
    (h : lastStore cur l = .ok res) (hc : cur ≠ some (some 0)) :
    res ≠ some (some 0) := by
  induction l generalizing cur with
  | nil =>
    simp only [lastStore, Except.ok.injEq] at h
    rw [← h]
    exact hc
  | cons x t ih =>
    simp only [lastStore] at h
    obtain ⟨v, hv, h⟩ := exceptBind_ok h
    exact ih h (by simp [parse_float_ok_ne_zero hv])

/-- The shares/fees loop preserves "neither slot is an exact zero". -/
theorem sfLoop_ne_zero {l : List JVal} {rv res : Option (Option ℚ) × Option (Option ℚ)}
    (h : Event.sfLoop l rv = .ok res)
    (h1 : rv.1 ≠ some (some 0)) (h2 : rv.2 ≠ some (some 0)) :
    res.1 ≠ some (some 0) ∧ res.2 ≠ some (some 0) := by
  induction l generalizing rv with
  | nil =>
    simp only [Event.sfLoop, Except.ok.injEq] at h
    rw [← h]
    exact ⟨h1, h2⟩
  | cons sec t ih =>
    simp only [Event.sfLoop] at h
    obtain ⟨tt, htt, h⟩ := exceptBind_ok h
    split at h
    · obtain ⟨dataJ, -, h⟩ := exceptBind_ok h
      obtain ⟨items, -, h⟩ := exceptBind_ok h
      obtain ⟨sd, -, h⟩ := exceptBind_ok h
      obtain ⟨fd, -, h⟩ := exceptBind_ok h
      obtain ⟨rvS, hS, h⟩ := exceptBind_ok h
      obtain ⟨rvF, hF, h⟩ := exceptBind_ok h
      exact ih h (lastStore_ne_zero hS h1) (lastStore_ne_zero hF h2)
    · exact ih h h1 h2

/-- A joined slot equal to `some 0` pins the slot itself. -/
theorem join_some_zero {x : Option (Option ℚ)} (h : x.join = some 0) :
    x = some (some 0) := by
  cases x with
  | none => simp [Option.join] at h
  | some y => simp [Option.join] at h; rw [h]

/-- `Event._parse_shares_and_fees` never returns an exact zero in either
component. -/
theorem sharesFees_ne_zero {d : JVal} {sh fe : Option ℚ}
    (h : Event.parse_shares_and_fees d = .ok (sh, fe)) :
    sh ≠ some 0 ∧ fe ≠ some 0 := by
  simp only [Event.parse_shares_and_fees] at h
  obtain ⟨a, -, h⟩ := exceptBind_ok h
  obtain ⟨b, -, h⟩ := exceptBind_ok h
  obtain ⟨secs, -, h⟩ := exceptBind_ok h
  obtain ⟨rv, hrv, h⟩ := exceptBind_ok h
  have hi := sfLoop_ne_zero hrv (by simp) (by simp)
  simp only [pure_ok, Except.ok.injEq, Prod.mk.injEq] at h
  constructor
  · rw [← h.1]
    intro hj
    exact hi.1 (join_some_zero hj)
  · rw [← h.2]
    intro hj
    exact hi.2 (join_some_zero hj)

/-- The inner taxes scan never returns an exact zero. -/
theorem taxItems_ne_zero {l : List JVal} {r : Option ℚ}
    (h : Event.taxItems l = .ok r) : r ≠ some 0 := by
  induction l with
  | nil =>
    simp only [Event.taxItems, Except.ok.injEq] at h
    rw [← h]
    simp
  | cons x t ih =>
    simp only [Event.taxItems] at h
    obtain ⟨b, hb, h⟩ := exceptBind_ok h
    split at h
    · obtain ⟨v, hv, h⟩ := exceptBind_ok h
      cases v with
      | some q =>
        simp only [Except.ok.injEq] at h
        rw [← h]
        exact parse_float_ok_ne_zero hv
      | none => exact ih h
    · exact ih h

/-- The taxes section scan never returns an exact zero. -/
theorem taxSecLoop_ne_zero {l : List JVal} {r : Option ℚ}
    (h : Event.taxSecLoop l = .ok r) : r ≠ some 0 := by
  induction l with
  | nil =>
    simp only [Event.taxSecLoop, Except.ok.injEq] at h
    rw [← h]
    simp
  | cons sec t ih =>
    simp only [Event.taxSecLoop] at h
    obtain ⟨fs, -, h⟩ := exceptBind_ok h
    split at h
    · obtain ⟨dataJ, -, h⟩ := exceptBind_ok h
      obtain ⟨items, -, h⟩ := exceptBind_ok h
      obtain ⟨found, hfound, h⟩ := exceptBind_ok h
      cases found with
      | some q =>
        simp only [Except.ok.injEq] at h
        rw [← h]
        exact taxItems_ne_zero hfound
      | none => exact ih h
    · exact ih h

/-- `Event._parse_taxes` never returns an exact zero. -/
theorem taxes_ne_zero {d : JVal} {r : Option ℚ}
    (h : Event.parse_taxes d = .ok r) : r ≠ some 0 := by
  simp only [Event.parse_taxes] at h
  obtain ⟨a, -, h⟩ := exceptBind_ok h
  obtain ⟨b, -, h⟩ := exceptBind_ok h
  obtain ⟨secs, -, h⟩ := exceptBind_ok h
  exact taxSecLoop_ne_zero h

/-- The perk loop preserves "the slot is not an exact zero". -/
theorem perkLoop_ne_zero {l : List JVal} {rv res : Option (Option ℚ)}
    (h : Event.perkLoop l rv = .ok res) (hc : rv ≠ some (some 0)) :
    res ≠ some (some 0) := by
  induction l generalizing rv with
  | nil =>
    simp only [Event.perkLoop, Except.ok.injEq] at h
    rw [← h]
    exact hc
  | cons sec t ih =>
    simp only [Event.perkLoop] at h
    obtain ⟨tt, -, h⟩ := exceptBind_ok h
    split at h
    · obtain ⟨dataJ, -, h⟩ := exceptBind_ok h
      obtain ⟨items, -, h⟩ := exceptBind_ok h
      obtain ⟨td, -, h⟩ := exceptBind_ok h
      obtain ⟨rv', hrv', h⟩ := exceptBind_ok h
      exact ih h (lastStore_ne_zero hrv' hc)
    · exact ih h hc

/-- `Event._parse_perk_value` never returns an exact zero. -/
theorem perk_ne_zero {d : JVal} {r : Option ℚ}
    (h : Event.parse_perk_value d = .ok r) : r ≠ some 0 := by
  simp only [Event.parse_perk_value] at h
  obtain ⟨a, -, h⟩ := exceptBind_ok h
  obtain ⟨b, -, h⟩ := exceptBind_ok h
  obtain ⟨secs, -, h⟩ := exceptBind_ok h
  obtain ⟨rv, hrv, h⟩ := exceptBind_ok h
  simp only [pure_ok, Except.ok.injEq] at h
  rw [← h]
  intro hj
  exact perkLoop_ne_zero hrv (by simp) (join_some_zero hj)

/-- C7: in every record produced by conversion, `fees`, `shares`, `taxes` and
`value` are each a non-zero number or absent; any detail text that strictly
parses to exactly zero under either locale convention yields absent; and an
amount value equal to zero yields an absent `value`. -/
theorem c7_nonzero_or_absent :
    (∀ (d : JVal) (ev : Event), Event.from_dict d = .ok ev →
       ev.fees ≠ some 0 ∧ ev.shares ≠ some 0 ∧ ev.taxes ≠ some 0 ∧
       ev.value ≠ some (.num 0)) ∧
    (∀ s : String,
       (parseDecimalStrict enLoc (cleanChars s.data) = some 0 ∨
        parseDecimalStrict deLoc (cleanChars s.data) = some 0) →
       parseAmount s = none) ∧
    amountValueOpt (.num 0) = none := by
  refine ⟨?_, parseAmount_zero_text, rfl⟩
  intro d ev h
  simp only [Event.from_dict] at h
  obtain ⟨tsJ, -, h⟩ := exceptBind_ok h
  obtain ⟨ts, -, h⟩ := exceptBind_ok h
  split at h
  · obtain ⟨date, -, h⟩ := exceptBind_ok h
    obtain ⟨etype, -, h⟩ := exceptBind_ok h
    obtain ⟨title, -, h⟩ := exceptBind_ok h
    obtain ⟨subtitle, -, h⟩ := exceptBind_ok h
    obtain ⟨amount, -, h⟩ := exceptBind_ok h
    obtain ⟨v, -, h⟩ := exceptBind_ok h
    split at h
    · obtain ⟨pv, hpv, h⟩ := exceptBind_ok h
      obtain ⟨value, hval, h⟩ := exceptBind_ok h
      obtain ⟨isinV, -, h⟩ := exceptBind_ok h
      obtain ⟨sf, hsf, h⟩ := exceptBind_ok h
      obtain ⟨taxes, htax, h⟩ := exceptBind_ok h
      obtain ⟨note, -, h⟩ := exceptBind_ok h
      simp only [pure_ok, Except.ok.injEq] at h hval
      subst h
      refine ⟨(sharesFees_ne_zero hsf).2, (sharesFees_ne_zero hsf).1,
        taxes_ne_zero htax, ?_⟩
      rw [← hval]
      have hne := perk_ne_zero hpv
      cases pv with
      | none => simp
      | some q =>
        simp only [Option.map_some', ne_eq, Option.some.injEq]
        intro hq
        injection hq with hq'
        exact hne (by rw [hq'])
    · obtain ⟨value, hval, h⟩ := exceptBind_ok h
      obtain ⟨isinV, -, h⟩ := exceptBind_ok h
      obtain ⟨sf, hsf, h⟩ := exceptBind_ok h
      obtain ⟨taxes, htax, h⟩ := exceptBind_ok h
      obtain ⟨note, -, h⟩ := exceptBind_ok h
      simp only [pure_ok, Except.ok.injEq] at h hval
      subst h
      refine ⟨(sharesFees_ne_zero hsf).2, (sharesFees_ne_zero hsf).1,
        taxes_ne_zero htax, ?_⟩
      rw [← hval]
      cases v with
      | null => simp [amountValueOpt]
      | num q =>
        by_cases hq : q = 0
        · simp [amountValueOpt, hq]
        · simp [amountValueOpt, hq]
      | str s => simp [amountValueOpt]
      | obj o => simp [amountValueOpt]
      | arr a => simp [amountValueOpt]
  · simp at h

/-- The C7 witness event: the defaults of the structured shape. -/
def c7d : JVal := mkRaw {}

/-- The record conversion produces on `c7d`. -/
def c7ev : Event :=
  ⟨⟨2024, 1, 2, 3, 4, 5⟩, .str "", .str "", none, none, none, none, none, none, none⟩

/-- C7 witness: the conversion hypothesis and the zero-text hypothesis
discharged on concrete inputs. -/
theorem c7_witness :
    (c7ev.fees ≠ some 0 ∧ c7ev.shares ≠ some 0 ∧ c7ev.taxes ≠ some 0 ∧
      c7ev.value ≠ some (.num 0)) ∧
    parseAmount "0,00" = none :=
  ⟨c7_nonzero_or_absent.1 c7d c7ev rfl,
   c7_nonzero_or_absent.2.1 "0,00" (Or.inr (by decide))⟩
